import Mathlib

/-!
Verification of the hive-cli overlay builder and sandbox execution loop.

The definitions below are a shallow embedding of the Python sources:
  * `libs/sandbox_utils/overlay.py` (`mirror_overlay`, `process_target_paths`,
    `materialize_overrides`, `mirror_overlay_and_overwrite`),
  * `src/hive_cli/libs/common_tools.py` (`run_command`),
  * `src/hive_cli/libs/main.py` (`send_to_server`, `execute_python_function`,
    `main_loop`).
Filesystem trees are modelled as inductive trees with association-list
directories; Python string operations (`str.split`, `str.strip`,
`str.splitlines`, `os.path.normpath`) are re-implemented character by
character over `String.data`.
-/

namespace HiveCli

/-! ## Python string primitives -/

/-- Model of Python `s.split(os.sep)` with `os.sep = "/"`: splits at every
slash and keeps empty segments, so the result is always non-empty. -/
def splitSlashAux : List Char → List Char → List String
  | [], acc => [String.mk acc.reverse]
  | c :: cs, acc =>
    if c = '/' then String.mk acc.reverse :: splitSlashAux cs []
    else splitSlashAux cs (c :: acc)

/-- Python `s.split("/")`. -/
def splitSlash (s : String) : List String := splitSlashAux s.data []

/-- Join components with `"/"`, model of `"/".join(comps)`. -/
def joinSlash : List String → String
  | [] => ""
  | [s] => s
  | s :: rest => s ++ "/" ++ joinSlash rest

/-- Number of leading `'/'` characters of a string, collapsed the way
`posixpath.normpath` treats them: `0` if none, `2` if exactly two, else `1`. -/
def leadingSlashCount (cs : List Char) : Nat :=
  match cs with
  | '/' :: rest => 1 + leadingSlashCount rest
  | _ => 0

/-- The `initial_slashes` value computed by `posixpath.normpath`. -/
def pyInitialSlashes (s : String) : Nat :=
  let n := leadingSlashCount s.data
  if n = 0 then 0 else if n = 2 then 2 else 1

/-- One step of the component scan inside `posixpath.normpath`. -/
def normpathStep (slashes : Nat) (acc : List String) (comp : String) : List String :=
  if comp = "" ∨ comp = "." then acc
  else if comp ≠ ".." ∨ (slashes = 0 ∧ acc = []) ∨ acc.getLast? = some ".." then
    acc ++ [comp]
  else acc.dropLast

/-- Model of Python `os.path.normpath` on POSIX (`posixpath.normpath`):
collapses empty and `"."` components, resolves `".."` against preceding
components, and preserves up to two leading slashes. -/
def normpathPy (path : String) : String :=
  if path = "" then "."
  else
    let slashes := pyInitialSlashes path
    let comps := (splitSlash path).foldl (normpathStep slashes) []
    let joined :=
      (if slashes = 2 then "//" else if slashes = 1 then "/" else "") ++ joinSlash comps
    if joined = "" then "." else joined

/-- The whitespace characters removed by Python `str.strip()` (ASCII part). -/
def isPySpace (c : Char) : Bool :=
  c = ' ' ∨ c = '\t' ∨ c = '\n' ∨ c = '\x0d' ∨ c = '\x0b' ∨ c = '\x0c'

/-- Model of Python `str.strip()`. -/
def pyStrip (s : String) : String :=
  String.mk (((s.data.dropWhile isPySpace).reverse.dropWhile isPySpace).reverse)

/-- Line-boundary characters of Python `str.splitlines()` other than `'\r'`
(carriage return gets look-ahead treatment for `"\r\n"`). -/
def isLineBreakChar (c : Char) : Bool :=
  c = '\n' ∨ c = '\x0b' ∨ c = '\x0c' ∨ c = '\x1c' ∨ c = '\x1d' ∨ c = '\x1e' ∨
    c = '\x85' ∨ c = '\u2028' ∨ c = '\u2029'

/-- Worker for `pySplitlines`; `acc` holds the current line reversed. -/
def pySplitlinesAux : List Char → List Char → List String
  | [], acc => if acc.isEmpty then [] else [String.mk acc.reverse]
  | '\x0d' :: '\n' :: cs, acc => String.mk acc.reverse :: pySplitlinesAux cs []
  | c :: cs, acc =>
    if c = '\x0d' ∨ isLineBreakChar c then String.mk acc.reverse :: pySplitlinesAux cs []
    else pySplitlinesAux cs (c :: acc)

/-- Model of Python `str.splitlines()`: every line boundary terminates a line,
and a final segment is reported only when non-empty (`"".splitlines() = []`). -/
def pySplitlines (s : String) : List String := pySplitlinesAux s.data []

/-! ## `common_tools.run_command` -/

/-- The exceptions that can cross the function boundaries of
`common_tools.run_command` / `main.execute_python_function`. -/
inductive PyException where
  /-- `common_tools.FunctionExecutionError` with its message (`str(e)`). -/
  | functionExecutionError (msg : String)
  /-- The `IndexError` raised by `stdout.strip().splitlines()[-1]` on an
  empty list. -/
  | indexError
  /-- `subprocess.SubprocessError` with its message. -/
  | subprocessError (msg : String)
  /-- The `TypeError` Python raises when a call passes more positional
  arguments than the callee declares. -/
  | typeError (msg : String)
  deriving DecidableEq, Repr

/-- Observable behaviour of one subprocess run: either it completed with an
exit status and captured streams, or `process.communicate` timed out. -/
inductive RunOutcome where
  /-- The process exited; negative `returncode` means signal termination. -/
  | completed (returncode : Int) (stdout stderr : String)
  /-- `subprocess.TimeoutExpired` was raised while waiting. -/
  | timedOut
  deriving DecidableEq, Repr

/-- Result of `run_command`: the returned value or raised exception, plus
whether `process.kill()` was invoked. -/
structure RunResult where
  result : Except PyException String
  killed : Bool
  deriving Repr

/-- Model of `common_tools.error_code_to_string`; the symbolic signal name and
human description appended by `signal.Signals(sig).name` / `signal.strsignal`
come from an OS table and are abbreviated to the numeric part here. -/
def error_code_to_string (sig : Int) : String :=
  "Terminated by signal " ++ toString sig

/-- Model of `common_tools.run_command`: negative exit status and non-zero
exit status raise `FunctionExecutionError`; a timeout kills the process and
raises `FunctionExecutionError("Timeout")`; on success the last line of the
stripped standard output is returned (`IndexError` when there is none). -/
def run_command (b : RunOutcome) : RunResult :=
  match b with
  | .timedOut => ⟨.error (.functionExecutionError "Timeout"), true⟩
  | .completed rc out err =>
    if rc < 0 then ⟨.error (.functionExecutionError (error_code_to_string (-rc))), false⟩
    else if rc ≠ 0 then ⟨.error (.functionExecutionError ("Error: " ++ err)), false⟩
    else
      match (pySplitlines (pyStrip out)).getLast? with
      | some lastLine => ⟨.ok lastLine, false⟩
      | none => ⟨.error .indexError, false⟩

/-! ## `main.execute_python_function` -/

/-- A positional argument as received from the coordinator's JSON. -/
inductive PyArg where
  | str (s : String)
  | int (n : Int)
  | bool (b : Bool)
  deriving DecidableEq, Repr

/-- Python `f"{arg}"` for the argument values above. -/
def pyArgFormat : PyArg → String
  | .str s => s
  | .int n => toString n
  | .bool b => if b then "True" else "False"

/-- The per-argument rewrite on line 68 of `main.py`:
`f'"{arg}"' if isinstance(arg, str) else f"{arg}"`. -/
def quoteArg : PyArg → String
  | .str s => "\"" ++ s ++ "\""
  | a => pyArgFormat a

/-- The argument-list rewrite performed by `execute_python_function`. -/
def quoteArgs (args : List PyArg) : List String := args.map quoteArg

/-- Python dict assignment `m[k] = v` on an insertion-ordered association
list: replaces the value of an existing key in place, else appends. -/
def setEntry (m : List (String × String)) (k v : String) : List (String × String) :=
  match m with
  | [] => [(k, v)]
  | (k', v') :: rest => if k' = k then (k, v) :: rest else (k', v') :: setEntry rest k v

/-- Lines 70–73 of `main.py`: the evaluation script's content is read from the
base repository and assigned into `code_files` under the script's path
(`code_files[evaluation_script] = evaluation_script_content`). -/
def injectEvaluationScript (code_files : List (String × String))
    (evaluation_script repo_content : String) : List (String × String) :=
  setEntry code_files evaluation_script repo_content

/-- The f-string on line 90 of `main.py`:
`f'{{"output": {output}, "metainfo": "Checkpoint"}}'`. -/
def checkpointWrap (output : String) : String :=
  "\x7b\"output\": " ++ output ++ ", \"metainfo\": \"Checkpoint\"\x7d"

/-- The exception raised by the call on lines 79–81 of `main.py`:
`common_tools.run_command([...], temp_dir, timeout, memory_limit)` passes
four positional arguments, but `run_command` (common_tools.py lines 34–38)
declares only three parameters (`cmd`, `cwd`, `timeout`), so Python raises
`TypeError` at the call site, before the function body runs and before any
subprocess is launched. -/
def run_command_arity_error : PyException :=
  .typeError "run_command() takes from 1 to 3 positional arguments but 4 were given"

/-- The `try`/`except` structure of `main.execute_python_function`
(lines 78–97), parameterized by the outcome of the `run_command` call on
line 79: a returned value is returned; a `FunctionExecutionError` triggers
the `cat checkpoint.json` fallback, whose own `FunctionExecutionError` is
re-raised with an `Execution failed:` prefix; any other exception
propagates uncaught. `catB` is the behaviour of the `cat` subprocess. -/
def runAndRecover (runResult : Except PyException String) (catB : RunOutcome) :
    Except PyException String :=
  match runResult with
  | .ok out => .ok out
  | .error (.functionExecutionError e) =>
    match (run_command catB).result with
    | .ok output => .ok (checkpointWrap output)
    | .error (.functionExecutionError _) =>
      .error (.functionExecutionError ("Execution failed: " ++ e))
    | .error other => .error other
  | .error other => .error other

/-- Model of `main.execute_python_function` (lines 77–97) as written: the
line-79 call raises the arity `TypeError` before the entry-point subprocess
can start, and the `except FunctionExecutionError` clause does not catch it,
so every invocation propagates the `TypeError`; the checkpoint fallback on
lines 86–97 is unreachable. -/
def execute_python_function (catB : RunOutcome) : Except PyException String :=
  runAndRecover (.error run_command_arity_error) catB

/-! ## `main.main_loop` result handling and `main.send_to_server` -/

/-- The value bound to `result` in `main_loop` for a `run` action. -/
inductive JobPayload where
  /-- The string returned by `execute_python_function`. -/
  | raw (s : String)
  /-- A `{"output": ..., "metainfo": ...}` dict built by an `except` branch. -/
  | structured (output : Option String) (metainfo : String)
  deriving DecidableEq, Repr

/-- The `try`/`except` around `execute_python_function` in `main_loop`
(lines 127–142): `FunctionExecutionError` and `subprocess.SubprocessError`
become structured payloads with a null output; anything else propagates. -/
def handle_run_result (r : Except PyException String) : Except PyException JobPayload :=
  match r with
  | .ok s => .ok (.raw s)
  | .error (.functionExecutionError e) => .ok (.structured none e)
  | .error (.subprocessError m) =>
    .ok (.structured none
      (if m = "Exception occurred in preexec_fn." then
        "Execution failed: Memory limit exceeded"
      else "Internal server error"))
  | .error other => .error other

/-- Model of `main.send_to_server` driven by the list of HTTP statuses the
coordinator returns on successive attempts. Returns the number of requests
issued and the list of sleeps performed (`none` when the status list is
exhausted while the loop is still retrying). Matches the source: only status
`200` breaks the loop; every other status sleeps `delay` and multiplies it by
`delay_multiplier`. -/
def send_to_server (statuses : List Nat) (delay mult : ℚ) : Option (Nat × List ℚ) :=
  match statuses with
  | [] => none
  | s :: rest =>
    if s = 200 then some (1, [])
    else
      match send_to_server rest (delay * mult) mult with
      | some (n, ds) => some (n + 1, delay :: ds)
      | none => none

/-! ## Filesystem trees for `overlay.py`

The base repository is a symlink-free tree of files and directories; an
overlay directory additionally contains symlinks, recorded by the base-root
relative path they point at (`os.symlink(base_item, overlay_item)` stores the
absolute path `base_dir/<rel>`, represented here by `<rel>` as a component
list). Directory listings are association lists in `os.listdir` order. -/

/-- A node of the read-only base repository tree. -/
inductive BaseTree where
  | file (content : String)
  | dir (children : List (String × BaseTree))
  deriving Repr

/-- A node of the overlay tree: a symlink into the base tree, a real file, or
a real directory. -/
inductive ONode where
  | link (target : List String)
  | file (content : String)
  | dir (children : List (String × ONode))
  deriving Repr

/-- First entry with the given name in a directory listing. -/
def findChild {α : Type} : List (String × α) → String → Option α
  | [], _ => none
  | (k, v) :: rest, name => if k = name then some v else findChild rest name

/-- Replace the entry with the given name in place, or append a new one
(directory listings hold at most one entry per name). -/
def setChild {α : Type} : List (String × α) → String → α → List (String × α)
  | [], name, v => [(name, v)]
  | (k, w) :: rest, name, v =>
    if k = name then (name, v) :: rest else (k, w) :: setChild rest name v

/-- Look a path up in a base directory listing; `[]` names the listing's own
directory and is not an entry. -/
def lookupBase (ch : List (String × BaseTree)) : List String → Option BaseTree
  | [] => none
  | c :: rest =>
    match findChild ch c with
    | none => none
    | some t =>
      match rest with
      | [] => some t
      | _ :: _ =>
        match t with
        | .dir g => lookupBase g rest
        | .file _ => none

/-- Look a path up in an overlay directory listing without following
symlinks: a path strictly below a `link` node has no overlay entry. -/
def lookupOv (ch : List (String × ONode)) : List String → Option ONode
  | [] => none
  | c :: rest =>
    match findChild ch c with
    | none => none
    | some t =>
      match rest with
      | [] => some t
      | _ :: _ =>
        match t with
        | .dir g => lookupOv g rest
        | _ => none

/-! ## `overlay.mirror_overlay` / `overlay.process_target_paths` -/

/-- The `sub_targets` computation: tails of the target component lists whose
first component equals the directory entry's name (both `mirror_overlay` and
`process_target_paths` compute this with identical comprehensions; membership
of the name in `items_on_target_path` is equivalent to this list being
non-empty). -/
def subTargets (targets : List (List String)) (name : String) : List (List String) :=
  targets.filterMap fun p =>
    match p with
    | [] => none
    | c :: rest => if c = name then some rest else none

/-- The shared recursion of `mirror_overlay` (top level) and
`process_target_paths` (deeper levels): walk the base listing; an entry on no
target path becomes a symlink to the corresponding base path; a directory
entry on a target path becomes a real directory processed recursively with
the matching target tails; a file entry on a target path is skipped. `pre` is
the path of the current directory relative to the base root. -/
def mirrorChildren (pre : List String) :
    List (String × BaseTree) → List (List String) → List (String × ONode)
  | [], _ => []
  | (name, sub) :: rest, targets =>
    let tail := mirrorChildren pre rest targets
    if (subTargets targets name).isEmpty then (name, .link (pre ++ [name])) :: tail
    else
      match sub with
      | .dir g => (name, .dir (mirrorChildren (pre ++ [name]) g (subTargets targets name))) :: tail
      | .file _ => tail

/-- Model of `overlay.mirror_overlay`: any pre-existing overlay directory is
cleared (`shutil.rmtree`), so the prior overlay content is discarded, and the
base listing is mirrored against the split target paths. The Python code
first collects the split paths into a `set`; duplicates and ordering of the
target list are irrelevant to the result here, so the list is used directly. -/
def mirror_overlay (base : List (String × BaseTree)) (_prior : List (String × ONode))
    (target_file_relatives : List String) : List (String × ONode) :=
  mirrorChildren [] base (target_file_relatives.map splitSlash)

/-! ## `overlay.materialize_overrides` -/

/-- Errors raised inside `materialize_overrides`. -/
inductive PyErr where
  /-- The `ValueError(f"Invalid relative path detected: {rel_path}")` of the
  path-security check. -/
  | invalidRelativePath (p : String)
  /-- `os.makedirs` hit an existing non-directory on the parent chain
  (`NotADirectoryError` / `FileExistsError`). -/
  | notADirectory
  /-- `open(path, "w")` hit a directory (`IsADirectoryError`). -/
  | isADirectory
  /-- A symlink target vanished (`FileNotFoundError`); unreachable for links
  created by `mirror_overlay` over an immutable base. -/
  | fileNotFound
  deriving DecidableEq, Repr

/-- Fresh node materialised by `os.makedirs` plus `open(..., "w")` along a
wholly absent path suffix: nested single-entry directories ending in a file. -/
def freshBaseNode : List String → String → BaseTree
  | [], content => .file content
  | c :: rest, content => .dir [(c, freshBaseNode rest content)]

/-- Overlay counterpart of `freshBaseNode`. -/
def freshOvNode : List String → String → ONode
  | [], content => .file content
  | c :: rest, content => .dir [(c, freshOvNode rest content)]

/-- Continue a write inside the base tree after a symlink was followed:
`strict` is the link's target path, which must resolve through existing
directories, and `createPath` the remaining components, for which missing
directories are created (`os.makedirs`) before the final file is written.
`os.makedirs` and `open` fail on the first existing non-matching node before
creating anything, so an error leaves the tree unchanged. -/
def baseCreate : List (String × BaseTree) → List String → String →
    Except PyErr (List (String × BaseTree))
  | _, [], _ => .error .isADirectory
  | ch, [c], content =>
    match findChild ch c with
    | none => .ok (setChild ch c (.file content))
    | some (.file _) => .ok (setChild ch c (.file content))
    | some (.dir _) => .error .isADirectory
  | ch, c :: rest, content =>
    match findChild ch c with
    | some (.dir g) => (baseCreate g rest content).map (fun g' => setChild ch c (.dir g'))
    | some (.file _) => .error .notADirectory
    | none => .ok (setChild ch c (freshBaseNode rest content))

/-- Strict resolution of a symlink target path inside the base tree, then a
creating write of the remaining components (see `baseCreate`). -/
def baseWriteGo : List (String × BaseTree) → List String → List String → String →
    Except PyErr (List (String × BaseTree))
  | ch, [], createPath, content => baseCreate ch createPath content
  | ch, c :: rest, createPath, content =>
    match findChild ch c with
    | some (.dir g) =>
      (baseWriteGo g rest createPath content).map (fun g' => setChild ch c (.dir g'))
    | some (.file _) => .error .notADirectory
    | none => .error .fileNotFound

/-- One override write (`os.makedirs(parent, exist_ok=True)`, the
`os.path.islink`/`os.unlink` pair, then `open(full_path, "w")`) at a
component path inside the overlay. Path resolution follows a symlink met on
the parent chain into the base tree, where the write then lands; a symlink at
the final component itself is unlinked and replaced by a real file. All
failure branches occur before any node is created, so an error leaves both
trees unchanged. -/
def ovWrite (base : List (String × BaseTree)) :
    List (String × ONode) → List String → String →
    Except PyErr (List (String × BaseTree) × List (String × ONode))
  | _, [], _ => .error .isADirectory
  | ov, [c], content =>
    match findChild ov c with
    | some (.dir _) => .error .isADirectory
    | some _ => .ok (base, setChild ov c (.file content))
    | none => .ok (base, setChild ov c (.file content))
  | ov, c :: rest, content =>
    match findChild ov c with
    | some (.dir g) =>
      (ovWrite base g rest content).map (fun p => (p.1, setChild ov c (.dir p.2)))
    | some (.file _) => .error .notADirectory
    | some (.link target) => (baseWriteGo base target rest content).map (fun b' => (b', ov))
    | none => .ok (base, setChild ov c (freshOvNode rest content))

/-- First char test, model of Python `normalized_path.startswith(os.sep)`. -/
def startsWithSlash (s : String) : Bool :=
  decide (s.data.head? = some '/')

/-- The validation on lines 105–109 of `overlay.py`: normalize the relative
path and reject it when the result starts with the separator or retains a
`..` component. -/
def validOverridePath (rel_path : String) : Bool :=
  let normalized := normpathPy rel_path
  ¬ (startsWithSlash normalized ∨ (splitSlash normalized).contains "..")

/-- Component list the write of an override entry happens at:
`os.path.join(overlay_dir, normalized_path)` relative to the overlay root.
A path normalizing to `"."` denotes the overlay root itself. -/
def writeComps (rel_path : String) : List String :=
  let normalized := normpathPy rel_path
  if normalized = "." then [] else splitSlash normalized

/-- The body of the loop in `materialize_overrides` for one map entry:
validate, then write. -/
def materializeStep (base : List (String × BaseTree)) (ov : List (String × ONode))
    (kv : String × String) :
    Except PyErr (List (String × BaseTree) × List (String × ONode)) :=
  if validOverridePath kv.1 then ovWrite base ov (writeComps kv.1) kv.2
  else .error (.invalidRelativePath kv.1)

/-- Model of `overlay.materialize_overrides`: process the override map in
iteration order; the first raised error aborts the loop, leaving the writes
of all earlier entries in place. The result is the final base tree, the
final overlay tree, and the error, if any. -/
def materialize_overrides (base : List (String × BaseTree)) (ov : List (String × ONode)) :
    List (String × String) →
    List (String × BaseTree) × List (String × ONode) × Option PyErr
  | [] => (base, ov, none)
  | kv :: rest =>
    match materializeStep base ov kv with
    | .error e => (base, ov, some e)
    | .ok (b', o') => materialize_overrides b' o' rest

/-- Model of `overlay.mirror_overlay_and_overwrite`: mirror the base into the
overlay directory restricted to the override map's keys, then materialize the
override contents. -/
def mirror_overlay_and_overwrite (base : List (String × BaseTree))
    (prior : List (String × ONode)) (file_content_map : List (String × String)) :
    List (String × BaseTree) × List (String × ONode) × Option PyErr :=
  materialize_overrides base (mirror_overlay base prior (file_content_map.map Prod.fst))
    file_content_map

/-! ## Path predicates used in the statements -/

/-- Path `p` is a strictly shorter initial segment of `t`: the ancestor
relation between relative paths, as component lists. -/
def StrictInitSeg (p t : List String) : Prop := ∃ c q, p ++ c :: q = t

/-- Path `p` lies on the ancestor chain of at least one target path. -/
def OnAncestorChain (p : List String) (targets : List (List String)) : Prop :=
  ∃ t ∈ targets, StrictInitSeg p t

/-- A well-formed relative path in the sense of the spec's data model:
slash-separated, not absolute, no `..` (and no empty or `.` component), so
that `os.path.normpath` leaves it unchanged. -/
def CleanKey (k : String) : Prop :=
  normpathPy k = k ∧
    ∀ c ∈ splitSlash k, c ≠ "" ∧ c ≠ "." ∧ c ≠ ".."

/-- No strict initial segment of `p` resolves to a symlink in the overlay:
path resolution for a write at `p` stays inside the overlay instead of
escaping through a link into the base tree. -/
def LinkFreeAlong (ov : List (String × ONode)) (p : List String) : Prop :=
  ∀ q, StrictInitSeg q p → ∀ τ, lookupOv ov q ≠ some (.link τ)

/-- A real directory tree never lists the same name twice; `os.listdir`
guarantees this for the base repository. -/
inductive NodupTree : BaseTree → Prop where
  | file : ∀ c, NodupTree (.file c)
  | dir : ∀ ch, (ch.map Prod.fst).Nodup → (∀ e ∈ ch, NodupTree e.2) →
      NodupTree (.dir ch)

/-- Well-formedness of a directory listing: distinct names, recursively. -/
def NodupListing (ch : List (String × BaseTree)) : Prop :=
  (ch.map Prod.fst).Nodup ∧ ∀ e ∈ ch, NodupTree e.2

/-! ## Helper lemmas -/

/-- A successful `findChild` yields a member of the listing. -/
theorem findChild_mem {α : Type} (ch : List (String × α)) (c : String) (v : α)
    (h : findChild ch c = some v) : (c, v) ∈ ch := by
  induction ch with
  | nil => simp [findChild] at h
  | cons e rest ih =>
    obtain ⟨k, w⟩ := e
    by_cases hk : k = c
    · subst hk
      simp [findChild] at h
      simp [h]
    · simp [findChild, hk] at h
      exact List.mem_cons_of_mem _ (ih h)

/-- Unfolding `findChild` at a matching head entry. -/
theorem findChild_cons_self {α : Type} (k : String) (v : α)
    (rest : List (String × α)) : findChild ((k, v) :: rest) k = some v := by
  simp [findChild]

/-- Unfolding `findChild` past a non-matching head entry. -/
theorem findChild_cons_ne {α : Type} (k : String) (v : α)
    (rest : List (String × α)) (c : String) (hk : ¬ k = c) :
    findChild ((k, v) :: rest) c = findChild rest c := by
  simp [findChild, hk]

/-- Membership in `subTargets`: exactly the tails of targets headed by the
entry's name. -/
theorem subTargets_mem (T : List (List String)) (c : String) (t' : List String) :
    t' ∈ subTargets T c ↔ c :: t' ∈ T := by
  simp only [subTargets, List.mem_filterMap]
  constructor
  · rintro ⟨a, ha, hfa⟩
    cases a with
    | nil => simp at hfa
    | cons x xs =>
      by_cases hx : x = c
      · subst hx
        simp at hfa
        subst hfa
        exact ha
      · simp [hx] at hfa
  · intro h
    exact ⟨c :: t', h, by simp⟩

/-- A list with a member is not empty. -/
theorem isEmpty_false_of_mem {α : Type} {l : List α} {a : α} (h : a ∈ l) :
    l.isEmpty = false := by
  cases l with
  | nil => simp at h
  | cons x xs => rfl

/-- Unfolding `mirrorChildren` on an empty listing. -/
theorem mirrorChildren_nil (pre : List String) (T : List (List String)) :
    mirrorChildren pre [] T = [] := by
  rw [mirrorChildren.eq_def]

/-- Unfolding `mirrorChildren` at an entry off every target path. -/
theorem mirrorChildren_cons_link (pre : List String) (k : String)
    (sub : BaseTree) (rest : List (String × BaseTree)) (T : List (List String))
    (he : (subTargets T k).isEmpty = true) :
    mirrorChildren pre ((k, sub) :: rest) T =
      (k, .link (pre ++ [k])) :: mirrorChildren pre rest T := by
  rw [mirrorChildren.eq_def]
  simp only [he, if_true]

/-- Unfolding `mirrorChildren` at a directory entry on a target path. -/
theorem mirrorChildren_cons_dir (pre : List String) (k : String)
    (g rest : List (String × BaseTree)) (T : List (List String))
    (he : (subTargets T k).isEmpty = false) :
    mirrorChildren pre ((k, .dir g) :: rest) T =
      (k, .dir (mirrorChildren (pre ++ [k]) g (subTargets T k))) ::
        mirrorChildren pre rest T := by
  rw [mirrorChildren.eq_def]
  simp only [he, Bool.false_eq_true, if_false]

/-- Unfolding `mirrorChildren` at a file entry on a target path (skipped). -/
theorem mirrorChildren_cons_skip (pre : List String) (k : String)
    (cont : String) (rest : List (String × BaseTree)) (T : List (List String))
    (he : (subTargets T k).isEmpty = false) :
    mirrorChildren pre ((k, .file cont) :: rest) T = mirrorChildren pre rest T := by
  rw [mirrorChildren.eq_def]
  simp only [he, Bool.false_eq_true, if_false]

/-- Overlay lookup of a one-component path is a listing lookup. -/
theorem lookupOv_single (ch : List (String × ONode)) (c : String) :
    lookupOv ch [c] = findChild ch c := by
  cases h : findChild ch c <;> simp [lookupOv, h]

/-- Overlay lookup of a longer path descends through a real directory and
fails on anything else. -/
theorem lookupOv_cons₂ (ch : List (String × ONode)) (c r : String)
    (rs : List String) :
    lookupOv ch (c :: r :: rs) =
      (match findChild ch c with
        | some (.dir g) => lookupOv g (r :: rs)
        | _ => none) := by
  cases h : findChild ch c with
  | none => simp [lookupOv, h]
  | some t => cases t <;> simp [lookupOv, h]

/-- Base lookup of a one-component path is a listing lookup. -/
theorem lookupBase_single (ch : List (String × BaseTree)) (c : String) :
    lookupBase ch [c] = findChild ch c := by
  cases h : findChild ch c <;> simp [lookupBase, h]

/-- Base lookup of a longer path descends through a directory and fails on a
file. -/
theorem lookupBase_cons₂ (ch : List (String × BaseTree)) (c r : String)
    (rs : List String) :
    lookupBase ch (c :: r :: rs) =
      (match findChild ch c with
        | some (.dir g) => lookupBase g (r :: rs)
        | _ => none) := by
  cases h : findChild ch c with
  | none => simp [lookupBase, h]
  | some t => cases t <;> simp [lookupBase, h]

/-- Names absent from the base listing are absent from its mirror. -/
theorem mirror_names_none (pre : List String) (ch : List (String × BaseTree))
    (T : List (List String)) (c : String) (hc : c ∉ ch.map Prod.fst) :
    findChild (mirrorChildren pre ch T) c = none := by
  induction ch with
  | nil => simp [mirrorChildren, findChild]
  | cons e rest ih =>
    obtain ⟨k, sub⟩ := e
    simp only [List.map_cons, List.mem_cons, not_or] at hc
    obtain ⟨hk, hrest⟩ := hc
    have hk' : ¬ k = c := fun h => hk h.symm
    by_cases he : (subTargets T k).isEmpty
    · rw [mirrorChildren_cons_link pre k sub rest T he, findChild_cons_ne _ _ _ _ hk']
      exact ih hrest
    · have he' : (subTargets T k).isEmpty = false := Bool.eq_false_iff.mpr he
      cases sub with
      | dir g =>
        rw [mirrorChildren_cons_dir pre k g rest T he', findChild_cons_ne _ _ _ _ hk']
        exact ih hrest
      | file cont =>
        rw [mirrorChildren_cons_skip pre k cont rest T he']
        exact ih hrest

/-- Inversion: every entry of a mirrored listing is either a link created in
the not-on-target branch, or a real directory created for a base directory
entry lying on a target path. -/
theorem mirror_findChild_inv (pre : List String) (ch : List (String × BaseTree))
    (T : List (List String)) (c : String) (n : ONode)
    (h : findChild (mirrorChildren pre ch T) c = some n) :
    ((subTargets T c).isEmpty = true ∧ n = .link (pre ++ [c])) ∨
      ((subTargets T c).isEmpty = false ∧
        ∃ g, (c, BaseTree.dir g) ∈ ch ∧
          n = .dir (mirrorChildren (pre ++ [c]) g (subTargets T c))) := by
  induction ch with
  | nil => simp [mirrorChildren, findChild] at h
  | cons e rest ih =>
    obtain ⟨k, sub⟩ := e
    by_cases hk : k = c
    · subst hk
      by_cases he : (subTargets T k).isEmpty
      · rw [mirrorChildren_cons_link pre k sub rest T he, findChild_cons_self] at h
        exact Or.inl ⟨he, (Option.some_inj.mp h).symm⟩
      · have he' : (subTargets T k).isEmpty = false := Bool.eq_false_iff.mpr he
        cases sub with
        | dir g =>
          rw [mirrorChildren_cons_dir pre k g rest T he', findChild_cons_self] at h
          exact Or.inr ⟨he', g, List.mem_cons_self _ _, (Option.some_inj.mp h).symm⟩
        | file cont =>
          rw [mirrorChildren_cons_skip pre k cont rest T he'] at h
          rcases ih h with h1 | ⟨hne, g, hmem, hn⟩
          · exact Or.inl h1
          · exact Or.inr ⟨hne, g, List.mem_cons_of_mem _ hmem, hn⟩
    · have hstep : findChild (mirrorChildren pre ((k, sub) :: rest) T) c =
          findChild (mirrorChildren pre rest T) c := by
        by_cases he : (subTargets T k).isEmpty
        · rw [mirrorChildren_cons_link pre k sub rest T he, findChild_cons_ne _ _ _ _ hk]
        · have he' : (subTargets T k).isEmpty = false := Bool.eq_false_iff.mpr he
          cases sub with
          | dir g =>
            rw [mirrorChildren_cons_dir pre k g rest T he', findChild_cons_ne _ _ _ _ hk]
          | file cont => rw [mirrorChildren_cons_skip pre k cont rest T he']
      rw [hstep] at h
      rcases ih h with h1 | ⟨hne, g, hmem, hn⟩
      · exact Or.inl h1
      · exact Or.inr ⟨hne, g, List.mem_cons_of_mem _ hmem, hn⟩

/-- An entry off every target path is mirrored as a link. -/
theorem mirror_findChild_link (pre : List String) (ch : List (String × BaseTree))
    (T : List (List String)) (c : String) (sub : BaseTree)
    (hf : findChild ch c = some sub) (he : (subTargets T c).isEmpty = true) :
    findChild (mirrorChildren pre ch T) c = some (.link (pre ++ [c])) := by
  induction ch with
  | nil => simp [findChild] at hf
  | cons e rest ih =>
    obtain ⟨k, s⟩ := e
    by_cases hk : k = c
    · subst hk
      rw [mirrorChildren_cons_link pre k s rest T he, findChild_cons_self]
    · rw [findChild_cons_ne _ _ _ _ hk] at hf
      have hrec := ih hf
      by_cases he' : (subTargets T k).isEmpty
      · rw [mirrorChildren_cons_link pre k s rest T he', findChild_cons_ne _ _ _ _ hk]
        exact hrec
      · have he'' : (subTargets T k).isEmpty = false := Bool.eq_false_iff.mpr he'
        cases s with
        | dir g =>
          rw [mirrorChildren_cons_dir pre k g rest T he'', findChild_cons_ne _ _ _ _ hk]
          exact hrec
        | file cont =>
          rw [mirrorChildren_cons_skip pre k cont rest T he'']
          exact hrec

/-- A directory entry on a target path is mirrored as a real directory whose
listing is the mirror of its base listing against the matching tails. -/
theorem mirror_findChild_dir (pre : List String) (ch : List (String × BaseTree))
    (T : List (List String)) (c : String) (g : List (String × BaseTree))
    (hf : findChild ch c = some (.dir g)) (he : (subTargets T c).isEmpty = false) :
    findChild (mirrorChildren pre ch T) c =
      some (.dir (mirrorChildren (pre ++ [c]) g (subTargets T c))) := by
  induction ch with
  | nil => simp [findChild] at hf
  | cons e rest ih =>
    obtain ⟨k, s⟩ := e
    by_cases hk : k = c
    · subst hk
      rw [findChild_cons_self] at hf
      have hs : s = .dir g := Option.some_inj.mp hf
      subst hs
      rw [mirrorChildren_cons_dir pre k g rest T he, findChild_cons_self]
    · rw [findChild_cons_ne _ _ _ _ hk] at hf
      have hrec := ih hf
      by_cases he' : (subTargets T k).isEmpty
      · rw [mirrorChildren_cons_link pre k s rest T he', findChild_cons_ne _ _ _ _ hk]
        exact hrec
      · have he'' : (subTargets T k).isEmpty = false := Bool.eq_false_iff.mpr he'
        cases s with
        | dir g' =>
          rw [mirrorChildren_cons_dir pre k g' rest T he'', findChild_cons_ne _ _ _ _ hk]
          exact hrec
        | file cont =>
          rw [mirrorChildren_cons_skip pre k cont rest T he'']
          exact hrec

/-- A file entry on a target path is skipped: it has no mirrored entry
(given that listing names are distinct). -/
theorem mirror_findChild_file_skip (pre : List String)
    (ch : List (String × BaseTree)) (T : List (List String)) (c : String)
    (cont : String) (hnd : (ch.map Prod.fst).Nodup)
    (hf : findChild ch c = some (.file cont))
    (he : (subTargets T c).isEmpty = false) :
    findChild (mirrorChildren pre ch T) c = none := by
  induction ch with
  | nil => simp [findChild] at hf
  | cons e rest ih =>
    obtain ⟨k, s⟩ := e
    simp only [List.map_cons, List.nodup_cons] at hnd
    by_cases hk : k = c
    · subst hk
      rw [findChild_cons_self] at hf
      have hs : s = .file cont := Option.some_inj.mp hf
      subst hs
      rw [mirrorChildren_cons_skip pre k cont rest T he]
      exact mirror_names_none pre rest T k hnd.1
    · rw [findChild_cons_ne _ _ _ _ hk] at hf
      have hrec := ih hnd.2 hf
      by_cases he' : (subTargets T k).isEmpty
      · rw [mirrorChildren_cons_link pre k s rest T he', findChild_cons_ne _ _ _ _ hk]
        exact hrec
      · have he'' : (subTargets T k).isEmpty = false := Bool.eq_false_iff.mpr he'
        cases s with
        | dir g' =>
          rw [mirrorChildren_cons_dir pre k g' rest T he'', findChild_cons_ne _ _ _ _ hk]
          exact hrec
        | file cont' =>
          rw [mirrorChildren_cons_skip pre k cont' rest T he'']
          exact hrec

/-- Recursive well-formedness descends into directory entries. -/
theorem nodupListing_descend (ch : List (String × BaseTree)) (c : String)
    (g : List (String × BaseTree)) (h : NodupListing ch)
    (hm : (c, BaseTree.dir g) ∈ ch) : NodupListing g := by
  have := h.2 _ hm
  cases this with
  | dir _ hnd hsub => exact ⟨hnd, hsub⟩

/-- Overlay nodes at paths that are neither targets nor target ancestors are
links to the corresponding base path. -/
theorem mirror_lookup_link (p : List String) :
    ∀ (pre : List String) (ch : List (String × BaseTree))
      (T : List (List String)) (n : ONode),
      lookupOv (mirrorChildren pre ch T) p = some n →
      (∀ t ∈ T, p ≠ t) → (∀ t ∈ T, ¬ StrictInitSeg p t) →
      n = .link (pre ++ p) := by
  induction p with
  | nil =>
    intro pre ch T n h _ _
    simp [lookupOv] at h
  | cons c rest ih =>
    intro pre ch T n h hnt hna
    cases hfc : findChild (mirrorChildren pre ch T) c with
    | none =>
      cases rest with
      | nil => rw [lookupOv_single, hfc] at h; cases h
      | cons r rs => rw [lookupOv_cons₂, hfc] at h; cases h
    | some t₀ =>
      rcases mirror_findChild_inv pre ch T c t₀ hfc with ⟨he, rfl⟩ | ⟨he, g, hmem, rfl⟩
      · cases rest with
        | nil =>
          rw [lookupOv_single, hfc] at h
          rw [(Option.some_inj.mp h).symm]
        | cons r rs =>
          rw [lookupOv_cons₂, hfc] at h
          cases h
      · obtain ⟨t', ht'⟩ : ∃ t', t' ∈ subTargets T c := by
          cases hsub : subTargets T c with
          | nil => rw [hsub] at he; simp at he
          | cons a as => exact ⟨a, List.mem_cons_self a as⟩
        have hmemT : c :: t' ∈ T := (subTargets_mem T c t').1 ht'
        cases rest with
        | nil =>
          cases t' with
          | nil => exact absurd rfl (hnt _ hmemT)
          | cons a as => exact absurd ⟨a, as, rfl⟩ (hna _ hmemT)
        | cons r rs =>
          rw [lookupOv_cons₂, hfc] at h
          have hnt' : ∀ t'' ∈ subTargets T c, r :: rs ≠ t'' := by
            intro t'' ht'' heq
            exact hnt (c :: t'') ((subTargets_mem T c t'').1 ht'') (by rw [heq])
          have hna' : ∀ t'' ∈ subTargets T c, ¬ StrictInitSeg (r :: rs) t'' := by
            rintro t'' ht'' ⟨x, q, hx⟩
            exact hna (c :: t'') ((subTargets_mem T c t'').1 ht'')
              ⟨x, q, by rw [List.cons_append, hx]⟩
          have := ih (pre ++ [c]) g (subTargets T c) n h hnt' hna'
          rw [this]
          simp

/-- Overlay nodes at base directories on a target's ancestor chain are real
directories. -/
theorem mirror_lookup_ancestor_dir (p : List String) :
    ∀ (pre : List String) (ch : List (String × BaseTree))
      (T : List (List String)) (g : List (String × BaseTree)),
      NodupListing ch → (∃ t ∈ T, StrictInitSeg p t) →
      lookupBase ch p = some (.dir g) →
      ∃ g', lookupOv (mirrorChildren pre ch T) p = some (.dir g') := by
  induction p with
  | nil =>
    intro pre ch T g _ _ hlb
    simp [lookupBase] at hlb
  | cons c rest ih =>
    intro pre ch T g hnd hanc hlb
    obtain ⟨t, htT, x, q, hxq⟩ := hanc
    have htsub : rest ++ x :: q ∈ subTargets T c := by
      rw [subTargets_mem]
      rw [show c :: (rest ++ x :: q) = (c :: rest) ++ x :: q from rfl, hxq]
      exact htT
    have he : (subTargets T c).isEmpty = false := isEmpty_false_of_mem htsub
    cases hfc : findChild ch c with
    | none =>
      cases rest with
      | nil => rw [lookupBase_single, hfc] at hlb; cases hlb
      | cons r rs => rw [lookupBase_cons₂, hfc] at hlb; cases hlb
    | some t₀ =>
      cases rest with
      | nil =>
        rw [lookupBase_single, hfc] at hlb
        have ht₀ : t₀ = .dir g := Option.some_inj.mp hlb
        subst ht₀
        exact ⟨mirrorChildren (pre ++ [c]) g (subTargets T c),
          by rw [lookupOv_single, mirror_findChild_dir pre ch T c g hfc he]⟩
      | cons r rs =>
        cases t₀ with
        | file cont => rw [lookupBase_cons₂, hfc] at hlb; cases hlb
        | dir g₁ =>
          rw [lookupBase_cons₂, hfc] at hlb
          have hnd₁ : NodupListing g₁ :=
            nodupListing_descend ch c g₁ hnd (findChild_mem ch c _ hfc)
          have hanc' : ∃ t' ∈ subTargets T c, StrictInitSeg (r :: rs) t' :=
            ⟨(r :: rs) ++ x :: q, htsub, x, q, rfl⟩
          obtain ⟨g', hg'⟩ := ih (pre ++ [c]) g₁ (subTargets T c) g hnd₁ hanc' hlb
          refine ⟨g', ?_⟩
          rw [lookupOv_cons₂, mirror_findChild_dir pre ch T c g₁ hfc he]
          exact hg'

/-- A target path whose base entry is a file has no overlay entry at all: it
is left absent until materialized. -/
theorem mirror_lookup_target_file (p : List String) :
    ∀ (pre : List String) (ch : List (String × BaseTree))
      (T : List (List String)) (cont : String),
      NodupListing ch → p ∈ T →
      lookupBase ch p = some (.file cont) →
      lookupOv (mirrorChildren pre ch T) p = none := by
  induction p with
  | nil =>
    intro pre ch T cont _ _ hlb
    simp [lookupBase] at hlb
  | cons c rest ih =>
    intro pre ch T cont hnd hpT hlb
    have hsub : rest ∈ subTargets T c := (subTargets_mem T c rest).2 hpT
    have he : (subTargets T c).isEmpty = false := isEmpty_false_of_mem hsub
    cases hfc : findChild ch c with
    | none =>
      cases rest with
      | nil => rw [lookupBase_single, hfc] at hlb; cases hlb
      | cons r rs => rw [lookupBase_cons₂, hfc] at hlb; cases hlb
    | some t₀ =>
      cases rest with
      | nil =>
        rw [lookupBase_single, hfc] at hlb
        have ht₀ : t₀ = .file cont := Option.some_inj.mp hlb
        subst ht₀
        rw [lookupOv_single, mirror_findChild_file_skip pre ch T c cont hnd.1 hfc he]
      | cons r rs =>
        cases t₀ with
        | file c₂ => rw [lookupBase_cons₂, hfc] at hlb; cases hlb
        | dir g₁ =>
          rw [lookupBase_cons₂, hfc] at hlb
          have hnd₁ : NodupListing g₁ :=
            nodupListing_descend ch c g₁ hnd (findChild_mem ch c _ hfc)
          have hrec := ih (pre ++ [c]) g₁ (subTargets T c) cont hnd₁ hsub hlb
          rw [lookupOv_cons₂, mirror_findChild_dir pre ch T c g₁ hfc he]
          exact hrec

/-- Overlay lookup of the empty path is never an entry. -/
theorem lookupOv_nil (ov : List (String × ONode)) : lookupOv ov [] = none := rfl

/-- Python `str.split` never returns an empty list. -/
theorem splitSlashAux_ne_nil (cs acc : List Char) : splitSlashAux cs acc ≠ [] := by
  induction cs generalizing acc with
  | nil => simp [splitSlashAux]
  | cons c rest ih =>
    by_cases hc : c = '/'
    · simp [splitSlashAux, hc]
    · simp only [splitSlashAux, hc, if_false]
      exact ih _

/-- The component list of a relative path is non-empty. -/
theorem splitSlash_ne_nil (s : String) : splitSlash s ≠ [] :=
  splitSlashAux_ne_nil s.data []

/-- `setChild` stores the new value under the given name. -/
theorem findChild_setChild_self {α : Type} (ch : List (String × α)) (c : String)
    (v : α) : findChild (setChild ch c v) c = some v := by
  induction ch with
  | nil => simp [setChild, findChild]
  | cons e rest ih =>
    obtain ⟨k, w⟩ := e
    by_cases hk : k = c
    · simp [setChild, hk, findChild]
    · simp [setChild, hk, findChild, ih]

/-- `setChild` leaves every other name unchanged. -/
theorem findChild_setChild_ne {α : Type} (ch : List (String × α)) (c : String)
    (v : α) (c' : String) (hne : ¬ c' = c) :
    findChild (setChild ch c v) c' = findChild ch c' := by
  have hne' : ¬ c = c' := fun h => hne h.symm
  induction ch with
  | nil =>
    simp only [setChild, findChild]
    rw [if_neg hne']
  | cons e rest ih =>
    obtain ⟨k, w⟩ := e
    by_cases hk : k = c
    · subst hk
      have h1 : setChild ((k, w) :: rest) k v = (k, v) :: rest := by simp [setChild]
      rw [h1]
      simp only [findChild]
      rw [if_neg hne', if_neg hne']
    · have h1 : setChild ((k, w) :: rest) c v = (k, w) :: setChild rest c v := by
        simp [setChild, hk]
      rw [h1]
      simp only [findChild]
      by_cases hk' : k = c'
      · rw [if_pos hk', if_pos hk']
      · rw [if_neg hk', if_neg hk']
        exact ih

/-- Paths starting at an unchanged name resolve identically after `setChild`. -/
theorem lookupOv_setChild_ne (ov : List (String × ONode)) (c : String) (v : ONode)
    (c' : String) (q : List String) (hne : ¬ c' = c) :
    lookupOv (setChild ov c v) (c' :: q) = lookupOv ov (c' :: q) := by
  cases q with
  | nil => rw [lookupOv_single, lookupOv_single, findChild_setChild_ne ov c v c' hne]
  | cons r rs => rw [lookupOv_cons₂, lookupOv_cons₂, findChild_setChild_ne ov c v c' hne]

/-- Freshly materialized directory chains contain no symlinks. -/
theorem fresh_no_link (q : List String) :
    ∀ (xs : List String) (x v : String) (τ : List String),
      lookupOv [(x, freshOvNode xs v)] q ≠ some (.link τ) := by
  induction q with
  | nil => intro xs x v τ; simp [lookupOv_nil]
  | cons c rest ih =>
    intro xs x v τ
    by_cases hc : x = c
    · subst hc
      cases rest with
      | nil =>
        rw [lookupOv_single, findChild_cons_self]
        cases xs with
        | nil => simp [freshOvNode]
        | cons y ys => simp [freshOvNode]
      | cons r rs =>
        rw [lookupOv_cons₂, findChild_cons_self]
        cases xs with
        | nil => simp [freshOvNode]
        | cons y ys =>
          simp only [freshOvNode]
          exact ih ys y v τ
    · cases rest with
      | nil =>
        rw [lookupOv_single, findChild_cons_ne _ _ _ _ hc]
        simp [findChild]
      | cons r rs =>
        rw [lookupOv_cons₂, findChild_cons_ne _ _ _ _ hc]
        simp [findChild]

/-- A freshly materialized chain ends in the written file. -/
theorem fresh_sets_file (l : List String) :
    ∀ (x v : String), lookupOv [(x, freshOvNode l v)] (x :: l) = some (.file v) := by
  induction l with
  | nil => intro x v; rw [lookupOv_single, findChild_cons_self]; rfl
  | cons y ys ih =>
    intro x v
    rw [lookupOv_cons₂, findChild_cons_self]
    simp only [freshOvNode]
    exact ih y v

/-- A path beginning with a separator splits with a leading empty component. -/
theorem startsWithSlash_mem (k : String) (h : startsWithSlash k = true) :
    "" ∈ splitSlash k := by
  unfold startsWithSlash at h
  rw [decide_eq_true_eq] at h
  unfold splitSlash
  cases hd : k.data with
  | nil => rw [hd] at h; cases h
  | cons c cs =>
    rw [hd] at h
    simp only [List.head?_cons, Option.some_inj] at h
    subst h
    rw [show splitSlashAux ('/' :: cs) [] = String.mk [] :: splitSlashAux cs [] from
      by simp [splitSlashAux]]
    exact List.mem_cons_self _ _

/-- A clean key passes the path-security validation. -/
theorem cleanKey_valid (k : String) (h : CleanKey k) :
    validOverridePath k = true := by
  obtain ⟨hnorm, hcomps⟩ := h
  unfold validOverridePath
  rw [hnorm]
  simp only [decide_eq_true_eq]
  rintro (hs | hc)
  · exact (hcomps "" (startsWithSlash_mem k hs)).1 rfl
  · exact (hcomps ".." (List.mem_of_elem_eq_true hc)).2.2 rfl

/-- A clean key's write components are its raw components. -/
theorem cleanKey_writeComps (k : String) (h : CleanKey k) :
    writeComps k = splitSlash k := by
  obtain ⟨hnorm, hcomps⟩ := h
  unfold writeComps
  rw [hnorm]
  have hkdot : ¬ k = "." := by
    intro hk
    subst hk
    exact (hcomps "." (by rw [show splitSlash "." = ["."] from rfl]; simp)).2.1 rfl
  simp [hkdot]

/-- Unfolding `ovWrite` at a single-component path (the final write site). -/
theorem ovWrite_single (base : List (String × BaseTree)) (ov : List (String × ONode))
    (c : String) (content : String) :
    ovWrite base ov [c] content =
      (match findChild ov c with
        | some (.dir _) => .error .isADirectory
        | _ => .ok (base, setChild ov c (.file content))) := by
  cases h : findChild ov c with
  | none => simp [ovWrite, h]
  | some t => cases t <;> simp [ovWrite, h]

/-- Unfolding `ovWrite` at a longer path (the parent-chain walk). -/
theorem ovWrite_cons₂ (base : List (String × BaseTree)) (ov : List (String × ONode))
    (c r : String) (rs : List String) (content : String) :
    ovWrite base ov (c :: r :: rs) content =
      (match findChild ov c with
        | some (.dir g) =>
          (ovWrite base g (r :: rs) content).map (fun p => (p.1, setChild ov c (.dir p.2)))
        | some (.file _) => .error .notADirectory
        | some (.link τ) => (baseWriteGo base τ (r :: rs) content).map (fun b' => (b', ov))
        | none => .ok (base, setChild ov c (freshOvNode (r :: rs) content))) := by
  cases h : findChild ov c with
  | none => simp [ovWrite, h]
  | some t => cases t <;> simp [ovWrite, h]

/-- Link-freedom along a path descends through a real directory. -/
theorem linkFreeAlong_descend (ov g : List (String × ONode)) (c r : String)
    (rs : List String) (hfc : findChild ov c = some (.dir g))
    (h : LinkFreeAlong ov (c :: r :: rs)) : LinkFreeAlong g (r :: rs) := by
  intro q hq τ hlook
  cases q with
  | nil => rw [lookupOv_nil] at hlook; cases hlook
  | cons q₁ q₂ =>
    obtain ⟨x, s, hx⟩ := hq
    refine h (c :: q₁ :: q₂) ⟨x, s, by rw [List.cons_append, hx]⟩ τ ?_
    rw [lookupOv_cons₂, hfc]
    exact hlook

/-- A write whose parent chain stays inside the overlay leaves the base tree
untouched. -/
theorem ovWrite_base_eq (comps : List String) :
    ∀ (base : List (String × BaseTree)) (ov : List (String × ONode))
      (content : String) (b' : List (String × BaseTree)) (o' : List (String × ONode)),
      LinkFreeAlong ov comps → ovWrite base ov comps content = .ok (b', o') →
      b' = base := by
  induction comps with
  | nil =>
    intro base ov content b' o' _ h
    rw [show ovWrite base ov [] content = .error .isADirectory from rfl] at h
    cases h
  | cons c rest ih =>
    intro base ov content b' o' hlf h
    cases rest with
    | nil =>
      rw [ovWrite_single] at h
      cases hfc : findChild ov c with
      | none =>
        rw [hfc] at h
        cases h
        rfl
      | some t =>
        cases t with
        | dir g => rw [hfc] at h; cases h
        | file w => rw [hfc] at h; cases h; rfl
        | link τ => rw [hfc] at h; cases h; rfl
    | cons r rs =>
      rw [ovWrite_cons₂] at h
      cases hfc : findChild ov c with
      | none =>
        rw [hfc] at h
        cases h
        rfl
      | some t =>
        cases t with
        | dir g =>
          rw [hfc] at h
          dsimp only at h
          cases hw : ovWrite base g (r :: rs) content with
          | error e =>
            rw [hw] at h
            simp [Except.map] at h
          | ok st =>
            obtain ⟨b₂, g₂⟩ := st
            rw [hw] at h
            simp only [Except.map, Except.ok.injEq, Prod.mk.injEq] at h
            rw [← h.1]
            exact ih base g content b₂ g₂
              (linkFreeAlong_descend ov g c r rs hfc hlf) hw
        | file w => rw [hfc] at h; cases h
        | link τ =>
          exfalso
          exact hlf [c] ⟨r, rs, rfl⟩ τ (by rw [lookupOv_single, hfc])

/-- `ovWrite` never creates symlinks: every link of the output overlay was
already present in the input overlay. -/
theorem ovWrite_links_mono (comps : List String) :
    ∀ (base : List (String × BaseTree)) (ov : List (String × ONode))
      (content : String) (b' : List (String × BaseTree)) (o' : List (String × ONode)),
      ovWrite base ov comps content = .ok (b', o') →
      ∀ p τ, lookupOv o' p = some (.link τ) → lookupOv ov p = some (.link τ) := by
  induction comps with
  | nil =>
    intro base ov content b' o' h
    rw [show ovWrite base ov [] content = .error .isADirectory from rfl] at h
    cases h
  | cons c rest ih =>
    intro base ov content b' o' h p τ hlook
    cases rest with
    | nil =>
      rw [ovWrite_single] at h
      have key : ∀ (ho : o' = setChild ov c (.file content)),
          lookupOv ov p = some (.link τ) := by
        intro ho
        subst ho
        cases p with
        | nil => rw [lookupOv_nil] at hlook; cases hlook
        | cons p₁ q =>
          by_cases hp : p₁ = c
          · subst hp
            cases q with
            | nil =>
              rw [lookupOv_single, findChild_setChild_self] at hlook
              cases hlook
            | cons r rs =>
              rw [lookupOv_cons₂, findChild_setChild_self] at hlook
              cases hlook
          · rw [lookupOv_setChild_ne ov c _ p₁ q hp] at hlook
            exact hlook
      cases hfc : findChild ov c with
      | none => rw [hfc] at h; cases h; exact key rfl
      | some t =>
        cases t with
        | dir g => rw [hfc] at h; cases h
        | file w => rw [hfc] at h; cases h; exact key rfl
        | link τ₀ => rw [hfc] at h; cases h; exact key rfl
    | cons r rs =>
      rw [ovWrite_cons₂] at h
      cases hfc : findChild ov c with
      | none =>
        rw [hfc] at h
        cases h
        cases p with
        | nil => rw [lookupOv_nil] at hlook; cases hlook
        | cons p₁ q =>
          by_cases hp : p₁ = c
          · subst hp
            cases q with
            | nil =>
              rw [lookupOv_single, findChild_setChild_self] at hlook
              cases hlook
            | cons q₁ q₂ =>
              rw [lookupOv_cons₂, findChild_setChild_self] at hlook
              simp only [freshOvNode] at hlook
              exact absurd hlook (fresh_no_link (q₁ :: q₂) rs r content τ)
          · rw [lookupOv_setChild_ne ov c _ p₁ q hp] at hlook
            exact hlook
      | some t =>
        cases t with
        | dir g =>
          rw [hfc] at h
          dsimp only at h
          cases hw : ovWrite base g (r :: rs) content with
          | error e =>
            rw [hw] at h
            simp [Except.map] at h
          | ok st =>
            obtain ⟨b₂, g₂⟩ := st
            rw [hw] at h
            simp only [Except.map, Except.ok.injEq, Prod.mk.injEq] at h
            rw [← h.2] at hlook
            cases p with
            | nil => rw [lookupOv_nil] at hlook; cases hlook
            | cons p₁ q =>
              by_cases hp : p₁ = c
              · subst hp
                cases q with
                | nil =>
                  rw [lookupOv_single, findChild_setChild_self] at hlook
                  cases hlook
                | cons q₁ q₂ =>
                  rw [lookupOv_cons₂, findChild_setChild_self] at hlook
                  have := ih base g content b₂ g₂ hw (q₁ :: q₂) τ hlook
                  rw [lookupOv_cons₂, hfc]
                  exact this
              · rw [lookupOv_setChild_ne ov c _ p₁ q hp] at hlook
                exact hlook
        | file w => rw [hfc] at h; cases h
        | link τ₀ =>
          rw [hfc] at h
          dsimp only at h
          cases hw : baseWriteGo base τ₀ (r :: rs) content with
          | error e =>
            rw [hw] at h
            simp [Except.map] at h
          | ok b₂ =>
            rw [hw] at h
            simp only [Except.map, Except.ok.injEq, Prod.mk.injEq] at h
            rw [← h.2] at hlook
            exact hlook

/-- A write with a link-free parent chain materializes a real file with the
written content at the path. -/
theorem ovWrite_sets_file (comps : List String) :
    ∀ (base : List (String × BaseTree)) (ov : List (String × ONode))
      (content : String) (b' : List (String × BaseTree)) (o' : List (String × ONode)),
      LinkFreeAlong ov comps → ovWrite base ov comps content = .ok (b', o') →
      lookupOv o' comps = some (.file content) := by
  induction comps with
  | nil =>
    intro base ov content b' o' _ h
    rw [show ovWrite base ov [] content = .error .isADirectory from rfl] at h
    cases h
  | cons c rest ih =>
    intro base ov content b' o' hlf h
    cases rest with
    | nil =>
      rw [ovWrite_single] at h
      have key : ∀ (ho : o' = setChild ov c (.file content)),
          lookupOv o' [c] = some (.file content) := by
        intro ho
        subst ho
        rw [lookupOv_single, findChild_setChild_self]
      cases hfc : findChild ov c with
      | none => rw [hfc] at h; cases h; exact key rfl
      | some t =>
        cases t with
        | dir g => rw [hfc] at h; cases h
        | file w => rw [hfc] at h; cases h; exact key rfl
        | link τ₀ => rw [hfc] at h; cases h; exact key rfl
    | cons r rs =>
      rw [ovWrite_cons₂] at h
      cases hfc : findChild ov c with
      | none =>
        rw [hfc] at h
        cases h
        rw [lookupOv_cons₂, findChild_setChild_self]
        simp only [freshOvNode]
        exact fresh_sets_file rs r content
      | some t =>
        cases t with
        | dir g =>
          rw [hfc] at h
          dsimp only at h
          cases hw : ovWrite base g (r :: rs) content with
          | error e =>
            rw [hw] at h
            simp [Except.map] at h
          | ok st =>
            obtain ⟨b₂, g₂⟩ := st
            rw [hw] at h
            simp only [Except.map, Except.ok.injEq, Prod.mk.injEq] at h
            rw [← h.2]
            rw [lookupOv_cons₂, findChild_setChild_self]
            exact ih base g content b₂ g₂
              (linkFreeAlong_descend ov g c r rs hfc hlf) hw
        | file w => rw [hfc] at h; cases h
        | link τ₀ =>
          exfalso
          exact hlf [c] ⟨r, rs, rfl⟩ τ₀ (by rw [lookupOv_single, hfc])

/-- A successful write preserves files at every path: any path holding a real
file before the write still holds a real file after it. -/
theorem ovWrite_preserves_file (comps' : List String) :
    ∀ (base : List (String × BaseTree)) (ov : List (String × ONode))
      (content : String) (b' : List (String × BaseTree)) (o' : List (String × ONode)),
      ovWrite base ov comps' content = .ok (b', o') →
      ∀ (comps : List String) (w : String),
        lookupOv ov comps = some (.file w) →
        ∃ w', lookupOv o' comps = some (.file w') := by
  induction comps' with
  | nil =>
    intro base ov content b' o' h
    rw [show ovWrite base ov [] content = .error .isADirectory from rfl] at h
    cases h
  | cons c' rest' ih =>
    intro base ov content b' o' h comps w hw
    cases rest' with
    | nil =>
      rw [ovWrite_single] at h
      have key : ∀ (ho : o' = setChild ov c' (.file content)),
          ∃ w', lookupOv o' comps = some (.file w') := by
        intro ho
        subst ho
        cases comps with
        | nil => rw [lookupOv_nil] at hw; cases hw
        | cons p₁ q =>
          by_cases hp : p₁ = c'
          · subst hp
            cases q with
            | nil =>
              exact ⟨content, by rw [lookupOv_single, findChild_setChild_self]⟩
            | cons q₁ q₂ =>
              refine ⟨w, ?_⟩
              rw [lookupOv_cons₂, findChild_setChild_self]
              rw [lookupOv_cons₂] at hw
              cases hfc : findChild ov p₁ with
              | none => rw [hfc] at hw; cases hw
              | some t =>
                cases t with
                | dir g => exfalso; rw [hfc] at h; cases h
                | file v => rw [hfc] at hw; cases hw
                | link τ => rw [hfc] at hw; cases hw
          · refine ⟨w, ?_⟩
            rw [lookupOv_setChild_ne ov c' _ p₁ q hp]
            exact hw
      cases hfc : findChild ov c' with
      | none => rw [hfc] at h; cases h; exact key rfl
      | some t =>
        cases t with
        | dir g => rw [hfc] at h; cases h
        | file v => rw [hfc] at h; cases h; exact key rfl
        | link τ₀ => rw [hfc] at h; cases h; exact key rfl
    | cons r' rs' =>
      rw [ovWrite_cons₂] at h
      cases hfc : findChild ov c' with
      | none =>
        rw [hfc] at h
        cases h
        cases comps with
        | nil => rw [lookupOv_nil] at hw; cases hw
        | cons p₁ q =>
          by_cases hp : p₁ = c'
          · subst hp
            exfalso
            cases q with
            | nil =>
              rw [lookupOv_single, hfc] at hw
              cases hw
            | cons q₁ q₂ =>
              rw [lookupOv_cons₂, hfc] at hw
              cases hw
          · refine ⟨w, ?_⟩
            rw [lookupOv_setChild_ne ov c' _ p₁ q hp]
            exact hw
      | some t =>
        cases t with
        | dir g =>
          rw [hfc] at h
          dsimp only at h
          cases hwr : ovWrite base g (r' :: rs') content with
          | error e =>
            rw [hwr] at h
            simp [Except.map] at h
          | ok st =>
            obtain ⟨b₂, g₂⟩ := st
            rw [hwr] at h
            simp only [Except.map, Except.ok.injEq, Prod.mk.injEq] at h
            rw [← h.2]
            cases comps with
            | nil => rw [lookupOv_nil] at hw; cases hw
            | cons p₁ q =>
              by_cases hp : p₁ = c'
              · subst hp
                cases q with
                | nil =>
                  exfalso
                  rw [lookupOv_single, hfc] at hw
                  cases hw
                | cons q₁ q₂ =>
                  rw [lookupOv_cons₂, hfc] at hw
                  obtain ⟨w', hw'⟩ := ih base g content b₂ g₂ hwr (q₁ :: q₂) w hw
                  exact ⟨w', by rw [lookupOv_cons₂, findChild_setChild_self]; exact hw'⟩
              · refine ⟨w, ?_⟩
                rw [lookupOv_setChild_ne ov c' _ p₁ q hp]
                exact hw
        | file v => rw [hfc] at h; cases h
        | link τ₀ =>
          rw [hfc] at h
          dsimp only at h
          cases hwr : baseWriteGo base τ₀ (r' :: rs') content with
          | error e =>
            rw [hwr] at h
            simp [Except.map] at h
          | ok b₂ =>
            rw [hwr] at h
            simp only [Except.map, Except.ok.injEq, Prod.mk.injEq] at h
            rw [← h.2]
            exact ⟨w, hw⟩

/-- Mirrors have no symlink strictly above any target: the ancestor chain of
a target is real directories or absent. -/
theorem mirror_prefix_no_link (p : List String) :
    ∀ (pre : List String) (ch : List (String × BaseTree))
      (T : List (List String)) (τ : List String),
      (∃ t ∈ T, StrictInitSeg p t) →
      lookupOv (mirrorChildren pre ch T) p ≠ some (.link τ) := by
  induction p with
  | nil =>
    intro pre ch T τ _
    rw [lookupOv_nil]
    simp
  | cons c rest ih =>
    intro pre ch T τ hanc h
    obtain ⟨t, htT, x, q, hxq⟩ := hanc
    have htsub : rest ++ x :: q ∈ subTargets T c := by
      rw [subTargets_mem]
      rw [show c :: (rest ++ x :: q) = (c :: rest) ++ x :: q from rfl, hxq]
      exact htT
    have he : (subTargets T c).isEmpty = false := isEmpty_false_of_mem htsub
    cases hfc : findChild (mirrorChildren pre ch T) c with
    | none =>
      cases rest with
      | nil => rw [lookupOv_single, hfc] at h; cases h
      | cons r rs => rw [lookupOv_cons₂, hfc] at h; cases h
    | some t₀ =>
      rcases mirror_findChild_inv pre ch T c t₀ hfc with ⟨he', _⟩ | ⟨_, g, hmem, rfl⟩
      · rw [he'] at he; cases he
      · cases rest with
        | nil =>
          rw [lookupOv_single, hfc] at h
          cases h
        | cons r rs =>
          rw [lookupOv_cons₂, hfc] at h
          exact ih (pre ++ [c]) g (subTargets T c) τ
            ⟨(r :: rs) ++ x :: q, htsub, x, q, rfl⟩ h

/-- For a clean key the security check passes and the write happens at the
raw component path. -/
theorem materializeStep_clean (base : List (String × BaseTree))
    (ov : List (String × ONode)) (kv : String × String) (hclean : CleanKey kv.1) :
    materializeStep base ov kv = ovWrite base ov (splitSlash kv.1) kv.2 := by
  unfold materializeStep
  rw [cleanKey_valid kv.1 hclean, cleanKey_writeComps kv.1 hclean]
  simp

/-- Materializing never destroys a real file: any path holding a file keeps
holding a file through the whole override loop. -/
theorem materialize_preserves_file (m : List (String × String)) :
    ∀ (base : List (String × BaseTree)) (ov : List (String × ONode))
      (comps : List String) (w : String),
      lookupOv ov comps = some (.file w) →
      ∃ w', lookupOv (materialize_overrides base ov m).2.1 comps = some (.file w') := by
  induction m with
  | nil =>
    intro base ov comps w h
    exact ⟨w, h⟩
  | cons kv rest ih =>
    intro base ov comps w h
    cases hs : materializeStep base ov kv with
    | error e =>
      have hm : materialize_overrides base ov (kv :: rest) = (base, ov, some e) := by
        simp [materialize_overrides, hs]
      rw [hm]
      exact ⟨w, h⟩
    | ok st =>
      obtain ⟨b', o'⟩ := st
      have hm : materialize_overrides base ov (kv :: rest) =
          materialize_overrides b' o' rest := by
        simp [materialize_overrides, hs]
      rw [hm]
      have hov : ovWrite base ov (writeComps kv.1) kv.2 = .ok (b', o') := by
        unfold materializeStep at hs
        cases hv : validOverridePath kv.1 with
        | true => rw [hv] at hs; simpa using hs
        | false => rw [hv] at hs; simp at hs
      obtain ⟨w', hw'⟩ :=
        ovWrite_preserves_file (writeComps kv.1) base ov kv.2 b' o' hov comps w h
      exact ih b' o' comps w' hw'

/-- Core induction for idempotence: over clean keys whose parent chains are
link-free, the override loop never writes into the base tree, and on success
every key ends as a real file in the overlay. -/
theorem materialize_clean_fold (m : List (String × String)) :
    ∀ (base : List (String × BaseTree)) (ov : List (String × ONode)),
      (∀ kv ∈ m, CleanKey kv.1) →
      (∀ kv ∈ m, LinkFreeAlong ov (splitSlash kv.1)) →
      (materialize_overrides base ov m).1 = base ∧
      ((materialize_overrides base ov m).2.2 = none →
        ∀ kv ∈ m, ∃ w,
          lookupOv (materialize_overrides base ov m).2.1 (splitSlash kv.1) =
            some (.file w)) := by
  induction m with
  | nil =>
    intro base ov _ _
    exact ⟨rfl, fun _ kv hkv => absurd hkv (List.not_mem_nil kv)⟩
  | cons kv rest ih =>
    intro base ov hclean hlf
    have hcl : CleanKey kv.1 := hclean kv (List.mem_cons_self kv rest)
    have hstep := materializeStep_clean base ov kv hcl
    cases hw : ovWrite base ov (splitSlash kv.1) kv.2 with
    | error e =>
      have hm : materialize_overrides base ov (kv :: rest) = (base, ov, some e) := by
        simp [materialize_overrides, hstep, hw]
      rw [hm]
      exact ⟨rfl, fun hnone => by cases hnone⟩
    | ok st =>
      obtain ⟨b', o'⟩ := st
      have hb : b' = base :=
        ovWrite_base_eq (splitSlash kv.1) base ov kv.2 b' o'
          (hlf kv (List.mem_cons_self kv rest)) hw
      have hm0 : materialize_overrides base ov (kv :: rest) =
          materialize_overrides b' o' rest := by
        simp [materialize_overrides, hstep, hw]
      have hm : materialize_overrides base ov (kv :: rest) =
          materialize_overrides base o' rest := by rw [hm0, hb]
      rw [hm]
      have hlf' : ∀ kv' ∈ rest, LinkFreeAlong o' (splitSlash kv'.1) := by
        intro kv' hkv' q hq τ hlook
        exact hlf kv' (List.mem_cons_of_mem kv hkv') q hq τ
          (ovWrite_links_mono (splitSlash kv.1) base ov kv.2 b' o' hw q τ hlook)
      obtain ⟨ihbase, ihfiles⟩ := ih base o'
        (fun kv' h' => hclean kv' (List.mem_cons_of_mem kv h')) hlf'
      refine ⟨ihbase, ?_⟩
      intro hnone kv' hkv'
      rcases List.mem_cons.mp hkv' with rfl | hkv'
      · have hset : lookupOv o' (splitSlash kv'.1) = some (.file kv'.2) :=
          ovWrite_sets_file (splitSlash kv'.1) base ov kv'.2 b' o'
            (hlf kv' (List.mem_cons_self kv' rest)) hw
        exact materialize_preserves_file rest base o' (splitSlash kv'.1) kv'.2 hset
      · exact ihfiles hnone kv' hkv'

/-! ## Claim theorems -/

/-- Claim C9 (confirmed): `execute_python_function` rewrites each
string-valued positional argument `arg` into the literal text `"arg"`
(surrounding double-quote characters included) before placing it in the
subprocess argument list, so the entry point receives each string argument
with added surrounding quote characters. -/
theorem C9_string_args_gain_quotes (args : List PyArg) (i : Nat) (s : String)
    (h : args[i]? = some (.str s)) :
    (quoteArgs args)[i]? = some ("\"" ++ s ++ "\"") := by
  simp [quoteArgs, List.getElem?_map, h, quoteArg]

/-- Witness for C9 at a concrete argument list. -/
theorem C9_string_args_gain_quotes_witness :
    ([PyArg.str "hi", PyArg.int 3][0]? = some (PyArg.str "hi")) ∧
      (quoteArgs [PyArg.str "hi", PyArg.int 3])[0]? = some ("\"" ++ "hi" ++ "\"") :=
  ⟨rfl, C9_string_args_gain_quotes [PyArg.str "hi", PyArg.int 3] 0 "hi" rfl⟩

/-- Claim C10 (confirmed): if the subprocess exits with status zero but its
captured standard output, after stripping, contains no lines, `run_command`
raises an unhandled `IndexError` (last element of an empty list) instead of
returning a result or a classified `FunctionExecutionError`. -/
theorem C10_empty_stdout_index_error (out err : String)
    (h : (pySplitlines (pyStrip out)).getLast? = none) :
    run_command (.completed 0 out err) = ⟨.error .indexError, false⟩ := by
  simp [run_command, h]

/-- Witness for C10: a subprocess that exits zero printing only whitespace. -/
theorem C10_empty_stdout_index_error_witness :
    ((pySplitlines (pyStrip " \n ")).getLast? = none) ∧
      run_command (.completed 0 " \n " "") = ⟨.error .indexError, false⟩ :=
  ⟨rfl, C10_empty_stdout_index_error " \n " "" rfl⟩

/-- Counterexample to claim C4: with a caller-supplied entry-point override
(`"caller-content"`), the map entry used by the sandbox is the base
repository's content, not the caller's. -/
theorem C4_counterexample :
    findChild (injectEvaluationScript [("evaluator.py", "caller-content")]
        "evaluator.py" "repo-content") "evaluator.py" = some "repo-content" ∧
      "repo-content" ≠ "caller-content" :=
  ⟨rfl, by decide⟩

/-- Claim C4 (corrected): the entry-point script is always read from the base
repository and written into the override map, replacing any caller-supplied
entry for it, so the sandbox always runs the base repository's entry-point
content. -/
theorem C4_entry_point_always_from_repo (code_files : List (String × String))
    (script repo_content : String) :
    findChild (injectEvaluationScript code_files script repo_content) script =
      some repo_content := by
  induction code_files with
  | nil => simp [injectEvaluationScript, setEntry, findChild]
  | cons kv rest ih =>
    obtain ⟨k, v⟩ := kv
    by_cases hk : k = script
    · simp [injectEvaluationScript, setEntry, hk, findChild]
    · simpa [injectEvaluationScript, setEntry, hk, findChild] using ih

/-- Counterexample to claim C6: after two non-2xx responses and a `204` (a
2xx status), the loop does not stop; it keeps retrying and issues a fourth
request, with a third backoff sleep. -/
theorem C6_counterexample :
    send_to_server [500, 500, 204, 200] 1 2 = some (4, [1, 1 * 2, 1 * 2 * 2]) ∧
      (4 : Nat) ≠ 3 := by
  constructor
  · simp [send_to_server]
  · decide

/-- Claim C6 (corrected): only an exact HTTP `200` response ends the retry
loop of `send_to_server`; any other status — 2xx or not — sleeps the current
delay and multiplies it by the configured multiplier. When the coordinator
returns a non-200 status twice and then `200`, exactly three requests are
issued, with inter-request delays `d` and `d * m`. -/
theorem C6_only_200_ends_retry (d m : ℚ) (s₁ s₂ : Nat) (rest : List Nat)
    (h₁ : s₁ ≠ 200) (h₂ : s₂ ≠ 200) :
    send_to_server (s₁ :: s₂ :: 200 :: rest) d m = some (3, [d, d * m]) := by
  simp [send_to_server, h₁, h₂]

/-- Witness for C6 at concrete statuses and backoff parameters. -/
theorem C6_only_200_ends_retry_witness :
    ((500 : Nat) ≠ 200) ∧ ((404 : Nat) ≠ 200) ∧
      send_to_server [500, 404, 200] 1 2 = some (3, [1, 1 * 2]) :=
  ⟨by decide, by decide, C6_only_200_ends_retry 1 2 500 404 [] (by decide) (by decide)⟩

/-- Claim C3 (code bug): `run_command` itself would kill a timed-out
subprocess and classify it as the Timeout `FunctionExecutionError`, but the
executor never reaches it: the call on lines 79–81 of `main.py` raises the
arity `TypeError` before any subprocess is launched, so no job ever runs
long enough to time out and the timeout handling the claim describes is
unreachable for every job. -/
theorem C3_timeout_path_unreachable :
    (run_command .timedOut).killed = true ∧
      (run_command .timedOut).result = .error (.functionExecutionError "Timeout") ∧
      ∀ catB, execute_python_function catB = .error run_command_arity_error :=
  ⟨rfl, rfl, fun _ => rfl⟩

/-- Claim C7 (code bug): a job that would exit non-zero after writing the
checkpoint `{"y":2}` never yields the checkpoint result: the executor raises
the arity `TypeError` before the entry point starts, so the fallback on
lines 86–97 of `main.py` is dead code and the result is the propagated
`TypeError`, not `{"output": {"y":2}, "metainfo": "Checkpoint"}`. -/
theorem C7_checkpoint_path_unreachable :
    execute_python_function (.completed 0 "\x7b\"y\":2\x7d" "") =
        .error run_command_arity_error ∧
      (.error run_command_arity_error : Except PyException String) ≠
        .ok "\x7b\"output\": \x7b\"y\":2\x7d, \"metainfo\": \"Checkpoint\"\x7d" :=
  ⟨rfl, by simp⟩

/-- Claim C2 (code bug): every `run` job raises `TypeError` at the
`run_command` call (four positional arguments to a three-parameter
function) before any subprocess is launched; neither the executor's
`except FunctionExecutionError` nor `main_loop`'s except clauses catch it,
so it escapes the channel loop as an unhandled fault instead of being
converted into a structured result payload. -/
theorem C2_type_error_escapes_loop (catB : RunOutcome) :
    handle_run_result (execute_python_function catB) =
      .error run_command_arity_error := rfl


/-- Counterexample to claim C1: an override map whose first entry is valid
and whose second has a `..` component raises the path-security error only
after the first entry's file has already been written — the filesystem is
mutated before the error. -/
theorem C1_counterexample :
    materialize_overrides [] [] [("ok", "x"), ("../evil", "y")] =
        ([], [("ok", ONode.file "x")], some (.invalidRelativePath "../evil")) ∧
      ([("ok", ONode.file "x")] : List (String × ONode)) ≠ [] :=
  ⟨rfl, by simp⟩

/-- Claim C1 (corrected): when an entry of the override map normalizes to a
path with a leading separator or a `..` component, `materialize_overrides`
raises the path-security error without writing that entry or any later
entry; entries iterated before the first offending one have already been
materialized normally (so if the offending entry comes first, nothing is
written at all). -/
theorem C1_invalid_path_stops_without_own_write
    (base : List (String × BaseTree)) (ov : List (String × ONode))
    (pre : List (String × String)) (k v : String) (post : List (String × String))
    (hpre : (materialize_overrides base ov pre).2.2 = none)
    (hk : validOverridePath k = false) :
    materialize_overrides base ov (pre ++ (k, v) :: post) =
      ((materialize_overrides base ov pre).1,
        (materialize_overrides base ov pre).2.1,
        some (.invalidRelativePath k)) := by
  induction pre generalizing base ov with
  | nil => simp [materialize_overrides, materializeStep, hk]
  | cons kv rest ih =>
    cases hstep : materializeStep base ov kv with
    | error e =>
      exfalso
      simp [materialize_overrides, hstep] at hpre
    | ok st =>
      have hpre' : (materialize_overrides st.1 st.2 rest).2.2 = none := by
        simpa [materialize_overrides, hstep] using hpre
      simpa [materialize_overrides, hstep] using ih st.1 st.2 hpre'

/-- Witness for C1: one valid entry written, then the offending entry. -/
theorem C1_invalid_path_stops_without_own_write_witness :
    ((materialize_overrides [] [] [("ok", "x")]).2.2 = none) ∧
      (validOverridePath "../evil" = false) ∧
      materialize_overrides [] [] ([("ok", "x")] ++ ("../evil", "y") :: []) =
        ((materialize_overrides [] [] [("ok", "x")]).1,
          (materialize_overrides [] [] [("ok", "x")]).2.1,
          some (.invalidRelativePath "../evil")) :=
  ⟨rfl, rfl,
    C1_invalid_path_stops_without_own_write [] [] [("ok", "x")] "../evil" "y" []
      rfl rfl⟩

/-- Counterexample to claim C5: a target path naming a base directory DOES
exist in the overlay — `mirror_overlay` materializes it as a real directory
with linked children, contradicting "no target path itself exists in the
overlay". -/
theorem C5_counterexample :
    lookupOv (mirror_overlay [("a", .dir [("x", .file "1")])] [] ["a"])
        (splitSlash "a") = some (.dir [("x", .link ["a", "x"])]) ∧
      some (ONode.dir [("x", ONode.link ["a", "x"])]) ≠ (none : Option ONode) := by
  constructor
  · simp +decide only [mirror_overlay, mirrorChildren_cons_dir,
      mirrorChildren_cons_link, mirrorChildren_nil]
    rfl
  · simp

/-- Claim C5 (corrected): after `mirror_overlay`, (1) every overlay entry
whose path is neither a target nor on some target's ancestor chain is a
symlink to the corresponding base entry; (2) every base directory on some
target's ancestor chain is a real directory in the overlay; (3) a target path
whose base entry is a FILE has no overlay entry (left absent until
materialized) — but a target path naming a base directory exists as a real
directory. -/
theorem C5_overlay_classification (base : List (String × BaseTree))
    (rels : List String) (hwf : NodupListing base) :
    (∀ p n, lookupOv (mirror_overlay base [] rels) p = some n →
        p ∉ rels.map splitSlash → ¬ OnAncestorChain p (rels.map splitSlash) →
        n = .link p) ∧
      (∀ p g, OnAncestorChain p (rels.map splitSlash) →
        lookupBase base p = some (.dir g) →
        ∃ g', lookupOv (mirror_overlay base [] rels) p = some (.dir g')) ∧
      (∀ p cont, p ∈ rels.map splitSlash →
        lookupBase base p = some (.file cont) →
        lookupOv (mirror_overlay base [] rels) p = none) := by
  refine ⟨?_, ?_, ?_⟩
  · intro p n h hnt hna
    have := mirror_lookup_link p [] base (rels.map splitSlash) n h
      (fun t ht heq => hnt (heq ▸ ht))
      (fun t ht hseg => hna ⟨t, ht, hseg⟩)
    simpa using this
  · intro p g hanc hlb
    obtain ⟨t, ht, hseg⟩ := hanc
    exact mirror_lookup_ancestor_dir p [] base (rels.map splitSlash) g hwf
      ⟨t, ht, hseg⟩ hlb
  · intro p cont hp hlb
    exact mirror_lookup_target_file p [] base (rels.map splitSlash) cont hwf hp hlb

/-- Witness for C5 on a concrete base tree and target set. -/
theorem C5_overlay_classification_witness :
    NodupListing [("d", .dir [("t", .file "T"), ("s", .file "S")])] ∧
      ((∀ p n, lookupOv (mirror_overlay
            [("d", .dir [("t", .file "T"), ("s", .file "S")])] [] ["d/t"]) p = some n →
          p ∉ (["d/t"].map splitSlash) →
          ¬ OnAncestorChain p (["d/t"].map splitSlash) → n = .link p) ∧
        (∀ p g, OnAncestorChain p (["d/t"].map splitSlash) →
          lookupBase [("d", .dir [("t", .file "T"), ("s", .file "S")])] p =
            some (.dir g) →
          ∃ g', lookupOv (mirror_overlay
            [("d", .dir [("t", .file "T"), ("s", .file "S")])] [] ["d/t"]) p =
              some (.dir g')) ∧
        (∀ p cont, p ∈ (["d/t"].map splitSlash) →
          lookupBase [("d", .dir [("t", .file "T"), ("s", .file "S")])] p =
            some (.file cont) →
          lookupOv (mirror_overlay
            [("d", .dir [("t", .file "T"), ("s", .file "S")])] [] ["d/t"]) p =
              none)) := by
  have hwf : NodupListing [("d", .dir [("t", .file "T"), ("s", .file "S")])] := by
    refine ⟨by simp, ?_⟩
    intro e hm
    rw [List.mem_singleton.mp hm]
    refine .dir _ (by simp) ?_
    intro e' hm'
    rcases List.mem_cons.mp hm' with h | h
    · rw [h]
      exact .file _
    · rw [List.mem_singleton.mp h]
      exact .file _
  exact ⟨hwf, C5_overlay_classification _ ["d/t"] hwf⟩

/-- Claim C8 (confirmed): for every base directory and override map (with
keys that are well-formed relative paths per the spec's data model), invoking
the overlay-and-override composite twice with the same inputs yields the same
final state — base tree, overlay tree and error — as invoking it once, and
when materialization succeeds every overridden path holds a real file (no
residual symlink). -/
theorem C8_composite_idempotent (base : List (String × BaseTree))
    (prior : List (String × ONode)) (m : List (String × String))
    (hclean : ∀ kv ∈ m, CleanKey kv.1) :
    mirror_overlay_and_overwrite (mirror_overlay_and_overwrite base prior m).1
        (mirror_overlay_and_overwrite base prior m).2.1 m =
      mirror_overlay_and_overwrite base prior m ∧
      ((mirror_overlay_and_overwrite base prior m).2.2 = none →
        ∀ kv ∈ m, ∃ w,
          lookupOv (mirror_overlay_and_overwrite base prior m).2.1
            (splitSlash kv.1) = some (.file w)) := by
  have hlfm : ∀ kv ∈ m, LinkFreeAlong
      (mirror_overlay base prior (m.map Prod.fst)) (splitSlash kv.1) := by
    intro kv hkv q hq τ hlook
    refine mirror_prefix_no_link q [] base ((m.map Prod.fst).map splitSlash) τ
      ⟨splitSlash kv.1, ?_, hq⟩ hlook
    exact List.mem_map_of_mem splitSlash (List.mem_map_of_mem Prod.fst hkv)
  obtain ⟨hbase, hfiles⟩ := materialize_clean_fold m base
    (mirror_overlay base prior (m.map Prod.fst)) hclean hlfm
  refine ⟨?_, hfiles⟩
  have h1 : (mirror_overlay_and_overwrite base prior m).1 = base := hbase
  show materialize_overrides (mirror_overlay_and_overwrite base prior m).1
      (mirror_overlay (mirror_overlay_and_overwrite base prior m).1
        (mirror_overlay_and_overwrite base prior m).2.1 (m.map Prod.fst)) m =
    mirror_overlay_and_overwrite base prior m
  rw [h1]
  exact rfl

/-- Witness for C8 on a concrete base tree and override map. -/
theorem C8_composite_idempotent_witness :
    (∀ kv ∈ ([("a/x", "NEW"), ("c/d", "C")] : List (String × String)),
        CleanKey kv.1) ∧
      (mirror_overlay_and_overwrite
          (mirror_overlay_and_overwrite
            [("a", .dir [("x", .file "1")]), ("b", .file "B")] []
            [("a/x", "NEW"), ("c/d", "C")]).1
          (mirror_overlay_and_overwrite
            [("a", .dir [("x", .file "1")]), ("b", .file "B")] []
            [("a/x", "NEW"), ("c/d", "C")]).2.1
          [("a/x", "NEW"), ("c/d", "C")] =
        mirror_overlay_and_overwrite
          [("a", .dir [("x", .file "1")]), ("b", .file "B")] []
          [("a/x", "NEW"), ("c/d", "C")] ∧
        ((mirror_overlay_and_overwrite
            [("a", .dir [("x", .file "1")]), ("b", .file "B")] []
            [("a/x", "NEW"), ("c/d", "C")]).2.2 = none →
          ∀ kv ∈ ([("a/x", "NEW"), ("c/d", "C")] : List (String × String)), ∃ w,
            lookupOv (mirror_overlay_and_overwrite
              [("a", .dir [("x", .file "1")]), ("b", .file "B")] []
              [("a/x", "NEW"), ("c/d", "C")]).2.1
              (splitSlash kv.1) = some (.file w))) := by
  have hcl : ∀ kv ∈ ([("a/x", "NEW"), ("c/d", "C")] : List (String × String)),
      CleanKey kv.1 := by
    intro kv hkv
    rcases List.mem_cons.mp hkv with rfl | hkv
    · exact ⟨by decide, by decide⟩
    · rw [List.mem_singleton.mp hkv]
      exact ⟨by decide, by decide⟩
  exact ⟨hcl, C8_composite_idempotent
    [("a", .dir [("x", .file "1")]), ("b", .file "B")] []
    [("a/x", "NEW"), ("c/d", "C")] hcl⟩

end HiveCli
